import Mathlib

/-
Verification development for the UnityFS bundle rewriter in src/src/main.cc
(std-microblock/ab-decompressor-ark).

Bytes are modelled as natural numbers (each in-range byte is < 256); byte
buffers are lists of naturals.  All multi-byte integers in the wire format are
big-endian, which the source realises through swap_endian + memcpy; here the
big-endian interpretation is built directly into beVal / beBytes.  Machine
integer casts (size_t to uint32_t, etc.) are modelled with explicit mod 2^w.
Fallible operations return Except String.  The external decompression
libraries (LzmaUncompress, LZ4_decompress_safe, lzham_decompress_memory) are
not part of the repository; they are abstracted as codec oracles: an oracle
takes the compressed bytes and the destination capacity and returns some
written-bytes list on success (the library contract bounds its length by the
capacity) or none on a hard decode failure.
-/

/-- Flag constants from main.cc lines 33-36. -/
def FLAG_COMPRESSION_MASK : Nat := 63

def FLAG_BLOCKS_AND_DIR_COMBINED : Nat := 64

def FLAG_BLOCK_INFO_AT_END : Nat := 128

def FLAG_BLOCK_INFO_NEEDS_ALIGNMENT : Nat := 512

/-- Read a byte of the working buffer (`data[i]` in the source; out-of-range
reads never occur on the guarded paths, see the safety theorem). -/
def getByte (data : List Nat) (i : Nat) : Nat := data.getD i 0

/-- Write a byte of the working buffer (`data[i] = v`); like the source, the
writes only happen at guarded in-range positions. -/
def setByte (data : List Nat) (i : Nat) (v : Nat) : List Nat := data.set i v

/-- Nibble transposition performed on each token byte (main.cc line 80):
`(literal_len << 4) | match_len_nibble` where `literal_len = token & 0x0F`
and `match_len_nibble = (token >> 4) & 0x0F`.  Since the two nibbles occupy
disjoint bit ranges the bit-or is plain addition. -/
def lzak_transpose (b : Nat) : Nat := b % 16 * 16 + b / 16 % 16

/-- Loop body of read_extra_length (main.cc lines 38-48), written with an
explicit structural fuel; the caller passes fuel `data.length - cursor`, which
is exactly the number of iterations the C++ `while (cursor < data.size())`
loop can still make (each iteration advances the cursor by one). -/
def read_extra_length_go (data : List Nat) : Nat → Nat → Nat → Nat × Nat
  | 0, cursor, acc => (acc, cursor)
  | fuel + 1, cursor, acc =>
    if cursor < data.length then
      let b := getByte data cursor
      if b = 255 then read_extra_length_go data fuel (cursor + 1) (acc + b)
      else (acc + b, cursor + 1)
    else (acc, cursor)

/-- read_extra_length (main.cc lines 38-48): accumulate bytes, stopping after
the first byte that is not 0xFF; returns the accumulated length and the new
cursor (the C++ passes the cursor by reference). -/
def read_extra_length (data : List Nat) (cursor : Nat) : Nat × Nat :=
  read_extra_length_go data (data.length - cursor) cursor 0

/-- Indices `a, a+1, ..., b-1`: the buffer positions a read_extra_length call
that started at cursor `a` and stopped at cursor `b` has read. -/
def relTouched (a b : Nat) : List Nat := List.range' a (b - a)

/-- Result of one iteration of the rewrite loop of decompress_lzak
(main.cc lines 74-111): the updated buffer, read cursor ip, virtual output
counter op, the list of buffer indices the iteration accessed, and whether
the loop continues (`cont = false` corresponds to one of the two `break`s). -/
structure LzakIterOut where
  buf : List Nat
  ip : Nat
  op : Nat
  touched : List Nat
  cont : Bool
deriving Repr, DecidableEq

/-- One iteration of the rewrite loop of decompress_lzak (main.cc lines
74-111), entered only when `ip < size` holds.  `size` is the cached
`fixed_data.size()` of line 72. -/
def lzakIter (usize size : Nat) (buf : List Nat) (ip op : Nat) : LzakIterOut :=
  let token := getByte buf ip
  let literal_len := token % 16
  let match_len_nibble := token / 16 % 16
  let buf1 := setByte buf ip (lzak_transpose token)
  let ext := if literal_len = 15 then read_extra_length buf1 (ip + 1) else (0, ip + 1)
  let current_literal_len := literal_len + ext.fst
  let ip2 := ext.snd + current_literal_len
  let op2 := op + current_literal_len
  let touched1 := ip :: relTouched (ip + 1) ext.snd
  if usize ≤ op2 then ⟨buf1, ip2, op2, touched1, false⟩
  else if size < ip2 + 2 then ⟨buf1, ip2, op2, touched1, false⟩
  else
    let b0 := getByte buf1 ip2
    let b1 := getByte buf1 (ip2 + 1)
    let buf2 := setByte (setByte buf1 ip2 b1) (ip2 + 1) b0
    let ext2 := if match_len_nibble = 15 then read_extra_length buf2 (ip2 + 2) else (0, ip2 + 2)
    let current_match_len := match_len_nibble + ext2.fst
    let op3 := op2 + (current_match_len + 4)
    ⟨buf2, ext2.snd, op3, touched1 ++ [ip2, ip2 + 1] ++ relTouched (ip2 + 2) ext2.snd, true⟩

/-- The `while (ip < size)` rewrite loop of decompress_lzak (main.cc lines
74-111), with structural fuel.  Every iteration advances ip by at least one,
so fuel `size` is enough for the whole loop (proved by lzakLoop_fuel_irrel);
the second output component collects every buffer index the loop accessed. -/
def lzakLoop (usize size : Nat) : Nat → List Nat → Nat → Nat → (List Nat × Nat × Nat) × List Nat
  | 0, buf, ip, op => ((buf, ip, op), [])
  | fuel + 1, buf, ip, op =>
    if ip < size then
      let r := lzakIter usize size buf ip op
      if r.cont then
        let rest := lzakLoop usize size fuel r.buf r.ip r.op
        (rest.fst, r.touched ++ rest.snd)
      else ((r.buf, r.ip, r.op), r.touched)
    else ((buf, ip, op), [])

/-- decompress_lzak (main.cc lines 61-131).  The trailing
LZ4_decompress_safe call is the external generic decoder, abstracted as the
oracle `lz4`; the C++ makes `dest` of the declared size, lets the library
write `result` bytes into it and, when `result` differs from the declared
size, prints a warning and resizes `dest` down to `result`; either way the
returned bytes are exactly the bytes the library wrote.  The Bool in the
result records whether that warning was printed. -/
def decompress_lzak (lz4 : List Nat → Nat → Option (List Nat))
    (compressed_data : List Nat) (uncompressed_size : Nat) :
    Except String (List Nat × Bool) :=
  if compressed_data.isEmpty then .ok ([], false)
  else
    let fixed_data := compressed_data
    let size := fixed_data.length
    let rewritten := (lzakLoop uncompressed_size size size fixed_data 0 0).fst.fst
    match lz4 rewritten uncompressed_size with
    | none => .error "LZ4AK decompression failed"
    | some result =>
      if result.length = uncompressed_size then .ok (result, false)
      else .ok (result, true)

/-- CompressionType (main.cc lines 23-29); `Other` models any raw 6-bit code
outside 0..4, which the dispatcher's `default:` case rejects. -/
inductive CompressionType where
  | None
  | Lzma
  | Lz4
  | Lz4hc
  | Lzham
  | Other (v : Nat)
deriving Repr, DecidableEq

/-- The `static_cast<CompressionType>` of a raw 6-bit wire value. -/
def CompressionType.ofNat : Nat → CompressionType
  | 0 => .None
  | 1 => .Lzma
  | 2 => .Lz4
  | 3 => .Lz4hc
  | 4 => .Lzham
  | n => .Other n

/-- GameMode (main.cc line 31). -/
inductive GameMode where
  | Standard
  | Arknights
deriving Repr, DecidableEq

/-- The three external decompression libraries, abstracted as oracles.
Each takes the compressed bytes (for LZMA: the 5 property bytes separately)
and the destination capacity, and returns the bytes the library wrote on
success, or none on a hard failure.  The real libraries never write more
than the capacity; theorems that need this state it as a hypothesis. -/
structure Codecs where
  lz4 : List Nat → Nat → Option (List Nat)
  lzma : List Nat → List Nat → Nat → Option (List Nat)
  lzham : List Nat → Nat → Option (List Nat)

/-- decompress_block (main.cc lines 133-196).  For the library-backed codecs
the C++ allocates `dst` of the declared size and returns it whole, so a short
library result leaves the tail zero-filled: modelled as the oracle's bytes
padded with zeros up to the declared size.  The Bool mirrors the warning flag
of decompress_lzak (no other path prints a size warning). -/
def decompress_block (c : Codecs) (type : CompressionType) (src : List Nat)
    (decompressed_size : Nat) (mode : GameMode) : Except String (List Nat × Bool) :=
  match type with
  | .None => .ok (src, false)
  | .Lzma =>
    if src.length < 5 then .error "Invalid LZMA data"
    else
      match c.lzma (src.take 5) (src.drop 5) decompressed_size with
      | none => .error "LZMA Decomp failed"
      | some out => .ok (out ++ List.replicate (decompressed_size - out.length) 0, false)
  | .Lz4 =>
    match c.lz4 src decompressed_size with
    | none => .error "LZ4 Decomp failed"
    | some out => .ok (out ++ List.replicate (decompressed_size - out.length) 0, false)
  | .Lz4hc =>
    match c.lz4 src decompressed_size with
    | none => .error "LZ4 Decomp failed"
    | some out => .ok (out ++ List.replicate (decompressed_size - out.length) 0, false)
  | .Lzham =>
    match mode with
    | .Arknights => decompress_lzak c.lz4 src decompressed_size
    | .Standard =>
      match c.lzham src decompressed_size with
      | none => .error "LZHAM Decomp failed"
      | some out => .ok (out ++ List.replicate (decompressed_size - out.length) 0, false)
  | .Other _ => .error "Unknown compression type"

/-- Big-endian value of a byte list (the first byte is the most
significant); this is what BinaryReader.read_be computes via memcpy plus
swap_endian on a little-endian host (main.cc lines 198-225). -/
def beVal (bytes : List Nat) : Nat := bytes.foldl (fun a b => a * 256 + b) 0

/-- The `n` big-endian bytes of `v mod 2^(8n)`; this is what the push_*_be
helpers of process_file and BinaryWriter.write_be emit (main.cc lines
268-271 and 415-429), with the uint32_t/int64_t truncation made explicit
by the mod. -/
def beBytes : Nat → Nat → List Nat
  | 0, _ => []
  | n + 1, v => beBytes n (v / 256) ++ [v % 256]

/-- BinaryReader.read_be (main.cc lines 218-225): read `n` bytes big-endian
at `pos`, failing with a bounds error when fewer than `n` bytes remain. -/
def read_be (data : List Nat) (pos n : Nat) : Except String (Nat × Nat) :=
  if pos + n ≤ data.length then .ok (beVal ((data.drop pos).take n), pos + n)
  else .error "buffer overflow"

/-- BinaryReader.read_string (main.cc lines 227-234): bytes up to the first
zero byte; the cursor advances past the terminator even when the buffer
ended without one (the C++ `pos_++` runs unconditionally). -/
def read_string (data : List Nat) (pos : Nat) : List Nat × Nat :=
  let s := (data.drop pos).takeWhile (fun b => b ≠ 0)
  (s, pos + s.length + 1)

/-- BinaryReader.read_bytes / get_span (main.cc lines 236-252): both return
the `n` bytes at `pos` and fail with a bounds error when fewer remain. -/
def get_span (data : List Nat) (pos n : Nat) : Except String (List Nat × Nat) :=
  if pos + n ≤ data.length then .ok ((data.drop pos).take n, pos + n)
  else .error "buffer overflow"

/-- BinaryReader.align / BinaryWriter.align (main.cc lines 256-259 and
281-286): the next multiple of `a` at or after `pos` (for `a = 16`). -/
def alignTo (pos a : Nat) : Nat :=
  if pos % a = 0 then pos else pos + (a - pos % a)

/-- ArchiveBlockInfo (main.cc lines 291-299); the three fields are the
uint32/uint32/uint16 wire values. -/
structure ArchiveBlockInfo where
  uncompressed_size : Nat
  compressed_size : Nat
  flags : Nat
deriving Repr, DecidableEq

/-- get_compression (main.cc line 296-298). -/
def ArchiveBlockInfo.get_compression (b : ArchiveBlockInfo) : CompressionType :=
  CompressionType.ofNat (Nat.land b.flags FLAG_COMPRESSION_MASK)

/-- ArchiveNode (main.cc lines 301-306): offset and size hold the raw
unsigned 64-bit wire value, status the 32-bit one, path the bytes of the
null-terminated string (terminator excluded). -/
structure ArchiveNode where
  offset : Nat
  size : Nat
  status : Nat
  path : List Nat
deriving Repr, DecidableEq

/-- The header fields process_file reads before the block-info table
(main.cc lines 321-340), plus the compressed table bytes and the reader
position right after them. -/
structure HeaderInfo where
  version : Nat
  unity_ver : List Nat
  unity_rev : List Nat
  bundle_size : Nat
  compressed_blocks_info_size : Nat
  uncompressed_blocks_info_size : Nat
  flags : Nat
  raw_block_info : List Nat
  pos_after : Nat
deriving Repr, DecidableEq

/-- The byte string "UnityFS". -/
def unityFS : List Nat := [85, 110, 105, 116, 121, 70, 83]

/-- Header parsing stage of process_file (main.cc lines 321-340): signature,
version, the two engine strings, the signature check, the five fixed fields,
the optional 16-byte alignment for version >= 7, and the compressed
block-info bytes. -/
def parseHeader (raw_file : List Nat) : Except String HeaderInfo :=
  let (signature, p1) := read_string raw_file 0
  match read_be raw_file p1 4 with
  | .error e => .error e
  | .ok (version, p2) =>
    let (unity_ver, p3) := read_string raw_file p2
    let (unity_rev, p4) := read_string raw_file p3
    if signature ≠ unityFS then .error "Only UnityFS format supported"
    else
      match read_be raw_file p4 8 with
      | .error e => .error e
      | .ok (bundle_size, p5) =>
        match read_be raw_file p5 4 with
        | .error e => .error e
        | .ok (compressed_blocks_info_size, p6) =>
          match read_be raw_file p6 4 with
          | .error e => .error e
          | .ok (uncompressed_blocks_info_size, p7) =>
            match read_be raw_file p7 4 with
            | .error e => .error e
            | .ok (flags, p8) =>
              let p9 := if 7 ≤ version then alignTo p8 16 else p8
              match get_span raw_file p9 compressed_blocks_info_size with
              | .error e => .error e
              | .ok (raw_block_info, p10) =>
                .ok ⟨version, unity_ver, unity_rev, bundle_size,
                     compressed_blocks_info_size, uncompressed_blocks_info_size,
                     flags, raw_block_info, p10⟩

/-- The block-descriptor reading loop of process_file (main.cc lines
354-359), one u32/u32/u16 triple per block. -/
def readBlocks (data : List Nat) (pos : Nat) :
    Nat → Except String (List ArchiveBlockInfo × Nat)
  | 0 => .ok ([], pos)
  | n + 1 =>
    match read_be data pos 4 with
    | .error e => .error e
    | .ok (u, p1) =>
      match read_be data p1 4 with
      | .error e => .error e
      | .ok (cmp, p2) =>
        match read_be data p2 2 with
        | .error e => .error e
        | .ok (f, p3) =>
          match readBlocks data p3 n with
          | .error e => .error e
          | .ok (rest, p4) => .ok (⟨u, cmp, f⟩ :: rest, p4)

/-- The node reading loop of process_file (main.cc lines 361-368), one
i64/i64/u32/cstring quadruple per node. -/
def readNodes (data : List Nat) (pos : Nat) :
    Nat → Except String (List ArchiveNode × Nat)
  | 0 => .ok ([], pos)
  | n + 1 =>
    match read_be data pos 8 with
    | .error e => .error e
    | .ok (off, p1) =>
      match read_be data p1 8 with
      | .error e => .error e
      | .ok (sz, p2) =>
        match read_be data p2 4 with
        | .error e => .error e
        | .ok (st, p3) =>
          let (path, p4) := read_string data p3
          match readNodes data p4 n with
          | .error e => .error e
          | .ok (rest, p5) => .ok (⟨off, sz, st, path⟩ :: rest, p5)

/-- Block-info parsing stage of process_file (main.cc lines 349-368): skip
the 16 reserved bytes, read the block descriptors, read the file entries.
Also returns the position where the node region starts (right after the node
count) and the position where it ends. -/
def parseBlockEntries (data : List Nat) :
    Except String (List ArchiveBlockInfo × List ArchiveNode × Nat × Nat) :=
  match get_span data 0 16 with
  | .error e => .error e
  | .ok (_hash, q1) =>
    match read_be data q1 4 with
    | .error e => .error e
    | .ok (blocks_count, q2) =>
      match readBlocks data q2 blocks_count with
      | .error e => .error e
      | .ok (blocks, q3) =>
        match read_be data q3 4 with
        | .error e => .error e
        | .ok (nodes_count, q4) =>
          match readNodes data q4 nodes_count with
          | .error e => .error e
          | .ok (nodes, q5) => .ok (blocks, nodes, q4, q5)

/-- Per-block decompression loop of process_file (main.cc lines 389-410):
take the block's compressed span, dispatch on its 6-bit compression code,
append the decompressed bytes to the concatenated payload and record a new
descriptor carrying the decompressed length (truncated to uint32 as by
`static_cast<uint32_t>`) twice and zero flags. -/
def decompressBlocksLoop (c : Codecs) (mode : GameMode) (raw_file : List Nat) (pos : Nat) :
    List ArchiveBlockInfo → Except String (List ArchiveBlockInfo × List Nat × Nat)
  | [] => .ok ([], [], pos)
  | blk :: rest =>
    match get_span raw_file pos blk.compressed_size with
    | .error e => .error e
    | .ok (compressed_bytes, p1) =>
      match decompress_block c blk.get_compression compressed_bytes blk.uncompressed_size mode with
      | .error e => .error e
      | .ok (raw, _w) =>
        match decompressBlocksLoop c mode raw_file p1 rest with
        | .error e => .error e
        | .ok (new_rest, data_rest, p2) =>
          .ok (⟨raw.length % 4294967296, raw.length % 4294967296, 0⟩ :: new_rest,
               raw ++ data_rest, p2)

/-- The bytes push_u32_be/push_u32_be/push_u16_be emit for one new block
descriptor (main.cc lines 439-443). -/
def serializeBlock (b : ArchiveBlockInfo) : List Nat :=
  beBytes 4 b.uncompressed_size ++ beBytes 4 b.compressed_size ++ beBytes 2 b.flags

/-- The bytes push_s64_be/push_s64_be/push_u32_be/push_bytes emit for one
file entry (main.cc lines 446-451): both 64-bit fields, the status word and
the path with its null terminator. -/
def serializeNode (n : ArchiveNode) : List Nat :=
  beBytes 8 n.offset ++ beBytes 8 n.size ++ beBytes 4 n.status ++ n.path ++ [0]

/-- Everything process_file computes after the blocks are decompressed
(main.cc lines 308-487), gathered in one record: the parsed entities and
the rebuilt output byte stream. -/
structure ProcessResult where
  version : Nat
  unity_ver : List Nat
  unity_rev : List Nat
  bundle_size : Nat
  flags : Nat
  blocks : List ArchiveBlockInfo
  nodes : List ArchiveNode
  block_info_data : List Nat
  nodes_start : Nat
  nodes_end : Nat
  new_blocks : List ArchiveBlockInfo
  all_decompressed_data : List Nat
  new_block_info_blob : List Nat
  total_file_size : Nat
  output : List Nat
deriving Repr, DecidableEq

/-- The bytes process_file writes before any version-7 alignment padding
(main.cc lines 453-476): signature, version, the two engine strings, the
recomputed total size, the blob size twice (compressed and uncompressed are
equal since the new table is stored uncompressed), and the new flags word,
which is exactly FLAG_BLOCKS_AND_DIR_COMBINED. -/
def outputPrefix (version : Nat) (uv ur : List Nat) (total blobLen : Nat) : List Nat :=
  unityFS ++ [0] ++ beBytes 4 version ++ uv ++ [0] ++ ur ++ [0] ++
  beBytes 8 total ++ beBytes 4 blobLen ++ beBytes 4 blobLen ++
  beBytes 4 FLAG_BLOCKS_AND_DIR_COMBINED

/-- Output synthesis stage of process_file (main.cc lines 413-484): build the
new block-info blob (null hash, new block descriptors, the file entries
copied through), serialize the header with the recomputed total size (the
header length is rounded up to 16 for version >= 7 before adding the blob
and payload sizes), write the two blob-size fields and the combined flag,
pad to 16 for version >= 7, then append blob and payload. -/
def buildResult (version : Nat) (uv ur : List Nat) (bundle_size flags : Nat)
    (blocks : List ArchiveBlockInfo) (nodes : List ArchiveNode)
    (block_info_data : List Nat) (nodes_start nodes_end : Nat)
    (new_blocks : List ArchiveBlockInfo) (payload : List Nat) : ProcessResult :=
  let new_block_info_blob :=
    List.replicate 16 0 ++ beBytes 4 new_blocks.length ++
    new_blocks.flatMap serializeBlock ++
    beBytes 4 nodes.length ++ nodes.flatMap serializeNode
  let header_min_size :=
    (unityFS ++ [0] ++ beBytes 4 version ++ uv ++ [0] ++ ur ++ [0]).length + 8 + 4 + 4 + 4
  let header_end_pos_approx := if 7 ≤ version then alignTo header_min_size 16 else header_min_size
  let total_file_size := header_end_pos_approx + new_block_info_blob.length + payload.length
  let pre_pad := outputPrefix version uv ur total_file_size new_block_info_blob.length
  let padded := if 7 ≤ version then
      pre_pad ++ List.replicate (alignTo pre_pad.length 16 - pre_pad.length) 0
    else pre_pad
  ⟨version, uv, ur, bundle_size, flags, blocks, nodes, block_info_data,
   nodes_start, nodes_end, new_blocks, payload, new_block_info_blob,
   total_file_size, padded ++ new_block_info_blob ++ payload⟩

/-- process_file (main.cc lines 308-487) on an in-memory input: parse the
header, inflate the block-info table (always with GameMode.Standard), parse
descriptors and file entries, decompress every block with the selected game
mode, and synthesize the rewritten output. -/
def process_file (c : Codecs) (game_mode : GameMode) (raw_file : List Nat) :
    Except String ProcessResult :=
  match parseHeader raw_file with
  | .error e => .error e
  | .ok h =>
    match decompress_block c (CompressionType.ofNat (Nat.land h.flags FLAG_COMPRESSION_MASK))
        h.raw_block_info h.uncompressed_blocks_info_size GameMode.Standard with
    | .error e => .error e
    | .ok (block_info_data, _w) =>
      match parseBlockEntries block_info_data with
      | .error e => .error e
      | .ok (blocks, nodes, nodes_start, nodes_end) =>
        let start_pos := if Nat.land h.flags FLAG_BLOCK_INFO_NEEDS_ALIGNMENT ≠ 0
          then alignTo h.pos_after 16 else h.pos_after
        match decompressBlocksLoop c game_mode raw_file start_pos blocks with
        | .error e => .error e
        | .ok (new_blocks, all_decompressed_data, _endp) =>
          .ok (buildResult h.version h.unity_ver h.unity_rev h.bundle_size h.flags
                blocks nodes block_info_data nodes_start nodes_end
                new_blocks all_decompressed_data)

theorem length_setByte (data : List Nat) (i v : Nat) :
    (setByte data i v).length = data.length := by
  simp [setByte]

theorem getByte_setByte_self (data : List Nat) (i v : Nat) (h : i < data.length) :
    getByte (setByte data i v) i = v := by
  simp [getByte, setByte, List.getElem?_set_self h]

theorem getByte_setByte_ne (data : List Nat) (i j v : Nat) (h : i ≠ j) :
    getByte (setByte data i v) j = getByte data j := by
  simp [getByte, setByte, List.getElem?_set_ne h]

theorem read_extra_length_go_mono (data : List Nat) :
    ∀ fuel cursor acc, cursor ≤ (read_extra_length_go data fuel cursor acc).snd := by
  intro fuel
  induction fuel with
  | zero => intro cursor acc; simp [read_extra_length_go]
  | succ n ih =>
    intro cursor acc
    simp only [read_extra_length_go]
    split
    · split
      · exact Nat.le_trans (Nat.le_succ _) (ih _ _)
      · simp
    · simp

theorem read_extra_length_mono (data : List Nat) (cursor : Nat) :
    cursor ≤ (read_extra_length data cursor).snd :=
  read_extra_length_go_mono data _ cursor 0

theorem read_extra_length_go_le_length (data : List Nat) :
    ∀ fuel cursor acc, cursor ≤ data.length →
      (read_extra_length_go data fuel cursor acc).snd ≤ data.length := by
  intro fuel
  induction fuel with
  | zero => intro cursor acc h; simpa [read_extra_length_go] using h
  | succ n ih =>
    intro cursor acc h
    simp only [read_extra_length_go]
    split
    case isTrue hlt =>
      split
      · exact ih _ _ hlt
      · simpa using hlt
    case isFalse => simpa using h

theorem read_extra_length_le_length (data : List Nat) (cursor : Nat)
    (h : cursor ≤ data.length) : (read_extra_length data cursor).snd ≤ data.length :=
  read_extra_length_go_le_length data _ cursor 0 h

theorem read_extra_length_at_end (data : List Nat) (cursor : Nat)
    (h : data.length ≤ cursor) : read_extra_length data cursor = (0, cursor) := by
  unfold read_extra_length
  have hz : data.length - cursor = 0 := by omega
  rw [hz]
  rfl

theorem relTouched_lt (a b i : Nat) (h : i ∈ relTouched a b) : i < b := by
  simp [relTouched, List.mem_range'] at h
  omega

theorem lzakIter_ip_lt (usize size : Nat) (buf : List Nat) (ip op : Nat) :
    ip < (lzakIter usize size buf ip op).ip := by
  have h1 := read_extra_length_mono (setByte buf ip (lzak_transpose (getByte buf ip))) (ip + 1)
  simp only [lzakIter]
  split
  case isTrue h15 =>
    split
    · dsimp only; omega
    · split
      · dsimp only; omega
      · split
        case isTrue h15b =>
          dsimp only
          refine Nat.lt_of_lt_of_le ?_ (read_extra_length_mono _ _)
          omega
        case isFalse => dsimp only; omega
  case isFalse h15 =>
    split
    · dsimp only; omega
    · split
      · dsimp only; omega
      · split
        case isTrue h15b =>
          dsimp only
          refine Nat.lt_of_lt_of_le ?_ (read_extra_length_mono _ _)
          omega
        case isFalse => dsimp only; omega

theorem lzakIter_buf_length (usize size : Nat) (buf : List Nat) (ip op : Nat) :
    (lzakIter usize size buf ip op).buf.length = buf.length := by
  simp only [lzakIter]
  split
  case isTrue h15 =>
    split
    · dsimp only; simp [length_setByte]
    · split
      · dsimp only; simp [length_setByte]
      · split
        case isTrue h15b => dsimp only; simp [length_setByte]
        case isFalse => dsimp only; simp [length_setByte]
  case isFalse h15 =>
    split
    · dsimp only; simp [length_setByte]
    · split
      · dsimp only; simp [length_setByte]
      · split
        case isTrue h15b => dsimp only; simp [length_setByte]
        case isFalse => dsimp only; simp [length_setByte]

theorem lzakIter_touched_lt (usize size : Nat) (buf : List Nat) (ip op : Nat)
    (hlen : buf.length = size) (hip : ip < size) :
    ∀ i ∈ (lzakIter usize size buf ip op).touched, i < size := by
  simp only [lzakIter]
  split
  case isTrue h15 =>
    split
    · dsimp only
      intro i hi
      rcases List.mem_cons.mp hi with rfl | hi2
      · exact hip
      · refine Nat.lt_of_lt_of_le (relTouched_lt _ _ _ hi2)
          (Nat.le_trans (read_extra_length_le_length _ _ ?_) ?_)
        · rw [length_setByte, hlen]; omega
        · rw [length_setByte, hlen]
    · split
      · dsimp only
        intro i hi
        rcases List.mem_cons.mp hi with rfl | hi2
        · exact hip
        · refine Nat.lt_of_lt_of_le (relTouched_lt _ _ _ hi2)
            (Nat.le_trans (read_extra_length_le_length _ _ ?_) ?_)
          · rw [length_setByte, hlen]; omega
          · rw [length_setByte, hlen]
      case isFalse hguard =>
        split
        case isTrue h15b =>
          dsimp only
          intro i hi
          simp only [List.mem_append, List.mem_cons, List.not_mem_nil, or_false] at hi
          rcases hi with ((rfl | hi2) | rfl | rfl) | hi5
          · exact hip
          · refine Nat.lt_of_lt_of_le (relTouched_lt _ _ _ hi2)
              (Nat.le_trans (read_extra_length_le_length _ _ ?_) ?_)
            · rw [length_setByte, hlen]; omega
            · rw [length_setByte, hlen]
          · omega
          · omega
          · refine Nat.lt_of_lt_of_le (relTouched_lt _ _ _ hi5)
              (Nat.le_trans (read_extra_length_le_length _ _ ?_) ?_)
            · rw [length_setByte, length_setByte, length_setByte, hlen]; omega
            · rw [length_setByte, length_setByte, length_setByte, hlen]
        case isFalse h15b =>
          dsimp only
          intro i hi
          simp only [List.mem_append, List.mem_cons, List.not_mem_nil, or_false] at hi
          rcases hi with ((rfl | hi2) | rfl | rfl) | hi5
          · exact hip
          · refine Nat.lt_of_lt_of_le (relTouched_lt _ _ _ hi2)
              (Nat.le_trans (read_extra_length_le_length _ _ ?_) ?_)
            · rw [length_setByte, hlen]; omega
            · rw [length_setByte, hlen]
          · omega
          · omega
          · have := relTouched_lt _ _ _ hi5
            omega
  case isFalse h15 =>
    split
    · dsimp only
      intro i hi
      rcases List.mem_cons.mp hi with rfl | hi2
      · exact hip
      · have := relTouched_lt _ _ _ hi2
        omega
    · split
      · dsimp only
        intro i hi
        rcases List.mem_cons.mp hi with rfl | hi2
        · exact hip
        · have := relTouched_lt _ _ _ hi2
          omega
      case isFalse hguard =>
        split
        case isTrue h15b =>
          dsimp only
          intro i hi
          simp only [List.mem_append, List.mem_cons, List.not_mem_nil, or_false] at hi
          rcases hi with ((rfl | hi2) | rfl | rfl) | hi5
          · exact hip
          · have := relTouched_lt _ _ _ hi2
            omega
          · omega
          · omega
          · refine Nat.lt_of_lt_of_le (relTouched_lt _ _ _ hi5)
              (Nat.le_trans (read_extra_length_le_length _ _ ?_) ?_)
            · rw [length_setByte, length_setByte, length_setByte, hlen]; omega
            · rw [length_setByte, length_setByte, length_setByte, hlen]
        case isFalse h15b =>
          dsimp only
          intro i hi
          simp only [List.mem_append, List.mem_cons, List.not_mem_nil, or_false] at hi
          rcases hi with ((rfl | hi2) | rfl | rfl) | hi5
          · exact hip
          · have := relTouched_lt _ _ _ hi2
            omega
          · omega
          · omega
          · have := relTouched_lt _ _ _ hi5
            omega

theorem lzakLoop_buf_length (usize size : Nat) :
    ∀ fuel buf ip op, (lzakLoop usize size fuel buf ip op).fst.fst.length = buf.length := by
  intro fuel
  induction fuel with
  | zero => intro buf ip op; rfl
  | succ n ih =>
    intro buf ip op
    simp only [lzakLoop]
    split
    · split
      · dsimp only
        rw [ih]
        exact lzakIter_buf_length usize size buf ip op
      · dsimp only
        exact lzakIter_buf_length usize size buf ip op
    · rfl

theorem lzakLoop_touched_lt (usize size : Nat) :
    ∀ fuel buf ip op, buf.length = size →
      ∀ i ∈ (lzakLoop usize size fuel buf ip op).snd, i < size := by
  intro fuel
  induction fuel with
  | zero => intro buf ip op _ i hi; simp [lzakLoop] at hi
  | succ n ih =>
    intro buf ip op hlen i hi
    simp only [lzakLoop] at hi
    split at hi
    case isTrue hip =>
      split at hi
      case isTrue hcont =>
        dsimp only at hi
        rcases List.mem_append.mp hi with h1 | h2
        · exact lzakIter_touched_lt usize size buf ip op hlen hip i h1
        · refine ih _ _ _ ?_ i h2
          rw [lzakIter_buf_length, hlen]
      case isFalse hcont =>
        exact lzakIter_touched_lt usize size buf ip op hlen hip i hi
    case isFalse hip => simp at hi

theorem lzakLoop_fuel_irrel (usize size : Nat) :
    ∀ f1 f2 buf ip op, size - ip ≤ f1 → size - ip ≤ f2 →
      lzakLoop usize size f1 buf ip op = lzakLoop usize size f2 buf ip op := by
  intro f1
  induction f1 with
  | zero =>
    intro f2 buf ip op h1 h2
    have hip : ¬ ip < size := by omega
    cases f2 with
    | zero => rfl
    | succ m => simp only [lzakLoop]; rw [if_neg hip]
  | succ n ih =>
    intro f2 buf ip op h1 h2
    by_cases hip : ip < size
    · cases f2 with
      | zero => omega
      | succ m =>
        simp only [lzakLoop]
        rw [if_pos hip, if_pos hip]
        have hlt := lzakIter_ip_lt usize size buf ip op
        split
        · rw [ih m _ _ _ (by omega) (by omega)]
        · rfl
    · cases f2 with
      | zero => simp only [lzakLoop]; rw [if_neg hip]
      | succ m => simp only [lzakLoop]; rw [if_neg hip, if_neg hip]

theorem beBytes_length : ∀ n v, (beBytes n v).length = n := by
  intro n
  induction n with
  | zero => intro v; rfl
  | succ m ih => intro v; simp [beBytes, ih]

theorem beVal_append_one (l : List Nat) (b : Nat) :
    beVal (l ++ [b]) = beVal l * 256 + b := by
  simp [beVal, List.foldl_append]

theorem beBytes_beVal : ∀ (n : Nat) (l : List Nat), l.length = n →
    (∀ b ∈ l, b < 256) → beBytes n (beVal l) = l := by
  intro n
  induction n with
  | zero =>
    intro l hlen _
    rw [List.eq_nil_of_length_eq_zero hlen]
    rfl
  | succ m ih =>
    intro l hlen hmem
    have hne : l ≠ [] := by
      intro h
      rw [h] at hlen
      simp at hlen
    have hdec := List.dropLast_append_getLast hne
    have hblt : l.getLast hne < 256 := hmem _ (List.getLast_mem hne)
    have htlen : l.dropLast.length = m := by simp [List.length_dropLast, hlen]
    calc beBytes (m + 1) (beVal l)
        = beBytes (m + 1) (beVal (l.dropLast ++ [l.getLast hne])) := by rw [hdec]
      _ = beBytes m (beVal l.dropLast) ++ [l.getLast hne] := by
          rw [beVal_append_one]
          simp only [beBytes]
          rw [Nat.mul_comm (beVal l.dropLast) 256, Nat.mul_add_div (by omega),
            Nat.mul_add_mod]
          rw [Nat.div_eq_of_lt hblt, Nat.mod_eq_of_lt hblt]
          simp
      _ = l.dropLast ++ [l.getLast hne] := by
          rw [ih l.dropLast htlen]
          intro b hb
          exact hmem b (hdec ▸ List.mem_append_left _ hb)
      _ = l := hdec

theorem take_add_split : ∀ (l : List Nat) (m k : Nat),
    l.take (m + k) = l.take m ++ (l.drop m).take k := by
  intro l
  induction l with
  | nil => intro m k; simp
  | cons a t ih =>
    intro m k
    cases m with
    | zero => simp
    | succ m2 =>
      simp only [List.take_succ_cons, List.drop_succ_cons]
      rw [Nat.succ_add, List.take_succ_cons, ih]
      simp

theorem region_split (data : List Nat) (pos m k : Nat) :
    (data.drop pos).take (m + k) =
      (data.drop pos).take m ++ (data.drop (pos + m)).take k := by
  rw [take_add_split, List.drop_drop]

theorem takeWhile_succ_region : ∀ (l : List Nat) (p : Nat → Bool),
    (l.takeWhile p).length < l.length →
    ∃ b, p b = false ∧ l.take ((l.takeWhile p).length + 1) = l.takeWhile p ++ [b] := by
  intro l
  induction l with
  | nil => intro p h; simp at h
  | cons a t ih =>
    intro p h
    by_cases hpa : p a = true
    · rw [List.takeWhile_cons_of_pos hpa] at h ⊢
      simp only [List.length_cons] at h
      obtain ⟨b, hb1, hb2⟩ := ih p (by omega)
      refine ⟨b, hb1, ?_⟩
      simp only [List.length_cons, List.take_succ_cons, hb2]
      simp
    · have hpa2 : p a = false := by simpa using hpa
      rw [List.takeWhile_cons_of_neg (by simp [hpa2])]
      exact ⟨a, hpa2, by simp⟩

theorem read_string_region (data : List Nat) (pos : Nat)
    (h : (read_string data pos).snd ≤ data.length) :
    (data.drop pos).take ((read_string data pos).fst.length + 1) =
      (read_string data pos).fst ++ [0] := by
  simp only [read_string] at h ⊢
  have hlt : ((data.drop pos).takeWhile (fun b => decide (b ≠ 0))).length <
      (data.drop pos).length := by
    simp only [List.length_drop]
    omega
  obtain ⟨b, hb1, hb2⟩ := takeWhile_succ_region (data.drop pos) (fun b => decide (b ≠ 0)) hlt
  have hb0 : b = 0 := by simpa using hb1
  rw [hb2, hb0]

theorem read_be_ok (data : List Nat) (pos n v p2 : Nat)
    (h : read_be data pos n = .ok (v, p2)) :
    v = beVal ((data.drop pos).take n) ∧ p2 = pos + n ∧ pos + n ≤ data.length := by
  rw [read_be] at h
  split at h
  case isTrue hle =>
    simp only [Except.ok.injEq, Prod.mk.injEq] at h
    exact ⟨h.1.symm, h.2.symm, hle⟩
  case isFalse => cases h

theorem get_span_ok (data : List Nat) (pos n : Nat) (s : List Nat) (p2 : Nat)
    (h : get_span data pos n = .ok (s, p2)) :
    s = (data.drop pos).take n ∧ p2 = pos + n ∧ pos + n ≤ data.length := by
  rw [get_span] at h
  split at h
  case isTrue hle =>
    simp only [Except.ok.injEq, Prod.mk.injEq] at h
    exact ⟨h.1.symm, h.2.symm, hle⟩
  case isFalse => cases h

theorem beSlice_roundtrip (data : List Nat) (hwf : ∀ b ∈ data, b < 256)
    (pos n : Nat) (h : pos + n ≤ data.length) :
    beBytes n (beVal ((data.drop pos).take n)) = (data.drop pos).take n := by
  apply beBytes_beVal
  · simp only [List.length_take, List.length_drop]
    omega
  · intro b hb
    exact hwf b (List.drop_subset _ _ (List.take_subset _ _ hb))

theorem readNodes_region (data : List Nat) (hwf : ∀ b ∈ data, b < 256) :
    ∀ (count pos : Nat) (nodes : List ArchiveNode) (endPos : Nat),
      readNodes data pos count = .ok (nodes, endPos) →
      endPos ≤ data.length →
      pos ≤ endPos ∧ nodes.length = count ∧
      nodes.flatMap serializeNode = (data.drop pos).take (endPos - pos) := by
  intro count
  induction count with
  | zero =>
    intro pos nodes endPos hok hend
    simp only [readNodes, Except.ok.injEq, Prod.mk.injEq] at hok
    obtain ⟨h1, h2⟩ := hok
    subst h1
    subst h2
    simp
  | succ n ih =>
    intro pos nodes endPos hok hend
    simp only [readNodes] at hok
    split at hok
    case h_1 => cases hok
    case h_2 off p1 heq1 =>
      split at hok
      case h_1 => cases hok
      case h_2 sz p2 heq2 =>
        split at hok
        case h_1 => cases hok
        case h_2 st p3 heq3 =>
          split at hok
          case h_1 => cases hok
          case h_2 rest p5 heq5 =>
            simp only [Except.ok.injEq, Prod.mk.injEq] at hok
            obtain ⟨hnodes, hend5⟩ := hok
            subst hnodes
            subst hend5
            obtain ⟨hoffv, hp1, hb1⟩ := read_be_ok data pos 8 off p1 heq1
            subst hp1
            obtain ⟨hszv, hp2, hb2⟩ := read_be_ok data (pos + 8) 8 sz p2 heq2
            subst hp2
            obtain ⟨hstv, hp3, hb3⟩ := read_be_ok data (pos + 8 + 8) 4 st p3 heq3
            subst hp3
            obtain ⟨ih1, ih2, ih3⟩ := ih _ rest p5 heq5 hend
            have hrs_snd : (read_string data (pos + 8 + 8 + 4)).snd =
                pos + 8 + 8 + 4 + (read_string data (pos + 8 + 8 + 4)).fst.length + 1 := rfl
            have hrs := read_string_region data (pos + 8 + 8 + 4) (Nat.le_trans ih1 hend)
            refine ⟨by omega, by simp [ih2], ?_⟩
            have hsum : p5 - pos = 8 + (8 + (4 + (((read_string data (pos + 8 + 8 + 4)).fst.length + 1) +
                (p5 - (read_string data (pos + 8 + 8 + 4)).snd)))) := by omega
            rw [hsum, region_split data pos 8, region_split data (pos + 8) 8,
              region_split data (pos + 8 + 8) 4,
              region_split data (pos + 8 + 8 + 4) ((read_string data (pos + 8 + 8 + 4)).fst.length + 1)]
            have hpos5 : pos + 8 + 8 + 4 + ((read_string data (pos + 8 + 8 + 4)).fst.length + 1) =
                (read_string data (pos + 8 + 8 + 4)).snd := by omega
            rw [hpos5]
            simp only [List.flatMap_cons, serializeNode]
            rw [hoffv, hszv, hstv, beSlice_roundtrip data hwf pos 8 hb1,
              beSlice_roundtrip data hwf (pos + 8) 8 hb2,
              beSlice_roundtrip data hwf (pos + 8 + 8) 4 hb3, hrs, ← ih3]
            simp [List.append_assoc]

theorem decompressBlocksLoop_props (c : Codecs) (mode : GameMode) (raw_file : List Nat) :
    ∀ (bs : List ArchiveBlockInfo) (pos : Nat) (nbs : List ArchiveBlockInfo)
      (payload : List Nat) (endp : Nat),
      decompressBlocksLoop c mode raw_file pos bs = .ok (nbs, payload, endp) →
      nbs.length = bs.length ∧
      (∀ nb ∈ nbs, nb.compressed_size = nb.uncompressed_size ∧ nb.flags = 0) ∧
      (payload.length < 4294967296 →
        (nbs.map (fun b => b.uncompressed_size)).sum = payload.length) := by
  intro bs
  induction bs with
  | nil =>
    intro pos nbs payload endp hok
    simp only [decompressBlocksLoop, Except.ok.injEq, Prod.mk.injEq] at hok
    obtain ⟨h1, h2, h3⟩ := hok
    subst h1
    subst h2
    simp
  | cons blk rest ih =>
    intro pos nbs payload endp hok
    simp only [decompressBlocksLoop] at hok
    split at hok
    case h_1 => cases hok
    case h_2 cbytes p1 heq1 =>
      split at hok
      case h_1 => cases hok
      case h_2 raw w heq2 =>
        split at hok
        case h_1 => cases hok
        case h_2 nrest drest p2 heq3 =>
          simp only [Except.ok.injEq, Prod.mk.injEq] at hok
          obtain ⟨h1, h2, h3⟩ := hok
          subst h1
          subst h2
          obtain ⟨ihl, ihflags, ihsum⟩ := ih p1 nrest drest p2 heq3
          refine ⟨by simp [ihl], ?_, ?_⟩
          · intro nb hnb
            rcases List.mem_cons.mp hnb with rfl | hmem
            · exact ⟨rfl, rfl⟩
            · exact ihflags nb hmem
          · intro hlt
            simp only [List.length_append] at hlt
            have hraw : raw.length % 4294967296 = raw.length := Nat.mod_eq_of_lt (by omega)
            simp only [List.map_cons, List.sum_cons, hraw, List.length_append]
            rw [ihsum (by omega)]

theorem buildResult_core (version : Nat) (uv ur : List Nat) (bundle_size flags : Nat)
    (blocks : List ArchiveBlockInfo) (nodes : List ArchiveNode)
    (bid : List Nat) (nstart nend : Nat)
    (new_blocks : List ArchiveBlockInfo) (payload : List Nat) :
    (buildResult version uv ur bundle_size flags blocks nodes bid nstart nend
      new_blocks payload).version = version ∧
    (buildResult version uv ur bundle_size flags blocks nodes bid nstart nend
      new_blocks payload).unity_ver = uv ∧
    (buildResult version uv ur bundle_size flags blocks nodes bid nstart nend
      new_blocks payload).unity_rev = ur ∧
    (buildResult version uv ur bundle_size flags blocks nodes bid nstart nend
      new_blocks payload).blocks = blocks ∧
    (buildResult version uv ur bundle_size flags blocks nodes bid nstart nend
      new_blocks payload).nodes = nodes ∧
    (buildResult version uv ur bundle_size flags blocks nodes bid nstart nend
      new_blocks payload).block_info_data = bid ∧
    (buildResult version uv ur bundle_size flags blocks nodes bid nstart nend
      new_blocks payload).nodes_start = nstart ∧
    (buildResult version uv ur bundle_size flags blocks nodes bid nstart nend
      new_blocks payload).nodes_end = nend ∧
    (buildResult version uv ur bundle_size flags blocks nodes bid nstart nend
      new_blocks payload).new_blocks = new_blocks ∧
    (buildResult version uv ur bundle_size flags blocks nodes bid nstart nend
      new_blocks payload).all_decompressed_data = payload :=
  ⟨rfl, rfl, rfl, rfl, rfl, rfl, rfl, rfl, rfl, rfl⟩

theorem buildResult_blob (version : Nat) (uv ur : List Nat) (bundle_size flags : Nat)
    (blocks : List ArchiveBlockInfo) (nodes : List ArchiveNode)
    (bid : List Nat) (nstart nend : Nat)
    (new_blocks : List ArchiveBlockInfo) (payload : List Nat) :
    (buildResult version uv ur bundle_size flags blocks nodes bid nstart nend
      new_blocks payload).new_block_info_blob =
      List.replicate 16 0 ++ beBytes 4 new_blocks.length ++
        new_blocks.flatMap serializeBlock ++
        beBytes 4 nodes.length ++ nodes.flatMap serializeNode :=
  rfl

theorem process_file_ok_elim (c : Codecs) (mode : GameMode) (input : List Nat)
    (r : ProcessResult) (hok : process_file c mode input = .ok r) :
    ∃ (h : HeaderInfo) (w : Bool) (bid : List Nat) (blocks : List ArchiveBlockInfo)
      (nodes : List ArchiveNode) (nstart nend : Nat)
      (new_blocks : List ArchiveBlockInfo) (payload : List Nat) (endp : Nat),
      parseHeader input = .ok h ∧
      decompress_block c (CompressionType.ofNat (Nat.land h.flags FLAG_COMPRESSION_MASK))
        h.raw_block_info h.uncompressed_blocks_info_size GameMode.Standard =
        .ok (bid, w) ∧
      parseBlockEntries bid = .ok (blocks, nodes, nstart, nend) ∧
      decompressBlocksLoop c mode input
        (if Nat.land h.flags FLAG_BLOCK_INFO_NEEDS_ALIGNMENT ≠ 0
         then alignTo h.pos_after 16 else h.pos_after) blocks =
        .ok (new_blocks, payload, endp) ∧
      r = buildResult h.version h.unity_ver h.unity_rev h.bundle_size h.flags
            blocks nodes bid nstart nend new_blocks payload := by
  simp only [process_file] at hok
  split at hok
  case h_1 => cases hok
  case h_2 h heqh =>
    split at hok
    case h_1 => cases hok
    case h_2 bid w heqd =>
      split at hok
      case h_1 => cases hok
      case h_2 blocks nodes nstart nend heqp =>
        split at hok
        case h_1 => cases hok
        case h_2 new_blocks payload endp heql =>
          have hr := hok
          simp only [Except.ok.injEq] at hr
          exact ⟨h, w, bid, blocks, nodes, nstart, nend, new_blocks, payload, endp,
            heqh, heqd, heqp, heql, hr.symm⟩

theorem parseBlockEntries_nodes (data : List Nat) (blocks : List ArchiveBlockInfo)
    (nodes : List ArchiveNode) (nstart nend : Nat)
    (h : parseBlockEntries data = .ok (blocks, nodes, nstart, nend)) :
    ∃ count, readNodes data nstart count = .ok (nodes, nend) := by
  simp only [parseBlockEntries] at h
  split at h
  case h_1 => cases h
  case h_2 hash q1 heq1 =>
    split at h
    case h_1 => cases h
    case h_2 bc q2 heq2 =>
      split at h
      case h_1 => cases h
      case h_2 bls q3 heq3 =>
        split at h
        case h_1 => cases h
        case h_2 nc q4 heq4 =>
          split at h
          case h_1 => cases h
          case h_2 nds q5 heq5 =>
            simp only [Except.ok.injEq, Prod.mk.injEq] at h
            obtain ⟨hb, hn, hs, he⟩ := h
            subst hb
            subst hn
            subst hs
            subst he
            exact ⟨nc, heq5⟩

/-- Codec oracles that always fail; the witness bundles below never invoke a
codec because every compression code in them is 0 (None). -/
def trivialCodecs : Codecs := ⟨fun _ _ => none, fun _ _ _ => none, fun _ _ => none⟩

/-- Block-info table of the one-block witness bundle: null hash, one block
descriptor (sizes 2/2, flags 0 = None), one file entry (offset 0, size 2,
status 0, path "a"). -/
def wTable1 : List Nat :=
  List.replicate 16 0 ++ [0, 0, 0, 1] ++ [0, 0, 0, 2, 0, 0, 0, 2, 0, 0] ++ [0, 0, 0, 1] ++
  (List.replicate 8 0 ++ [0, 0, 0, 0, 0, 0, 0, 2] ++ [0, 0, 0, 0] ++ [97, 0])

/-- A minimal version-6 bundle: UnityFS signature, empty engine strings,
uncompressed 56-byte table (wTable1), flags 0, one stored (None) block with
the 2-byte payload 7, 9. -/
def wBundle : List Nat :=
  [85, 110, 105, 116, 121, 70, 83, 0] ++ [0, 0, 0, 6] ++ [0] ++ [0] ++ List.replicate 8 0 ++
  [0, 0, 0, 56] ++ [0, 0, 0, 56] ++ [0, 0, 0, 0] ++ wTable1 ++ [7, 9]

/-- Block-info table of the two-block witness bundle: two block descriptors
(sizes 1/1 each, flags 0) and the same single file entry. -/
def wTable2 : List Nat :=
  List.replicate 16 0 ++ [0, 0, 0, 2] ++ [0, 0, 0, 1, 0, 0, 0, 1, 0, 0] ++
  [0, 0, 0, 1, 0, 0, 0, 1, 0, 0] ++ [0, 0, 0, 1] ++
  (List.replicate 8 0 ++ [0, 0, 0, 0, 0, 0, 0, 2] ++ [0, 0, 0, 0] ++ [97, 0])

/-- A minimal version-6 bundle with two stored blocks of one byte each. -/
def wBundle2 : List Nat :=
  [85, 110, 105, 116, 121, 70, 83, 0] ++ [0, 0, 0, 6] ++ [0] ++ [0] ++ List.replicate 8 0 ++
  [0, 0, 0, 66] ++ [0, 0, 0, 66] ++ [0, 0, 0, 0] ++ wTable2 ++ [7, 9]

/-- The result of processing wBundle (any game mode gives this value). -/
def wResult1 : ProcessResult :=
  (process_file trivialCodecs GameMode.Standard wBundle).toOption.getD
    (buildResult 0 [] [] 0 0 [] [] [] 0 0 [] [])

/-- The result of processing wBundle under the Arknights mode. -/
def wResult1A : ProcessResult :=
  (process_file trivialCodecs GameMode.Arknights wBundle).toOption.getD
    (buildResult 0 [] [] 0 0 [] [] [] 0 0 [] [])

/-- The result of processing the two-block bundle wBundle2. -/
def wResult2 : ProcessResult :=
  (process_file trivialCodecs GameMode.Standard wBundle2).toOption.getD
    (buildResult 0 [] [] 0 0 [] [] [] 0 0 [] [])

/-- C7: the total-size value written into the output header equals the
serialized header length (rounded up to the next multiple of 16 when the
format version is at least 7) plus the size of the newly synthesized table
blob plus the length of the concatenated decompressed payload; and in the
output byte stream it sits right after the version strings, before the
table blob and the payload are appended. -/
theorem claim_C7 (c : Codecs) (mode : GameMode) (input : List Nat)
    (r : ProcessResult) (hok : process_file c mode input = .ok r) :
    r.total_file_size =
      (if 7 ≤ r.version then
        alignTo ((unityFS ++ [0] ++ beBytes 4 r.version ++ r.unity_ver ++ [0] ++
          r.unity_rev ++ [0]).length + 8 + 4 + 4 + 4) 16
       else (unityFS ++ [0] ++ beBytes 4 r.version ++ r.unity_ver ++ [0] ++
          r.unity_rev ++ [0]).length + 8 + 4 + 4 + 4) +
      r.new_block_info_blob.length + r.all_decompressed_data.length ∧
    ∃ pad : List Nat,
      r.output =
        outputPrefix r.version r.unity_ver r.unity_rev r.total_file_size
          r.new_block_info_blob.length ++ pad ++
        r.new_block_info_blob ++ r.all_decompressed_data ∧
      (r.version < 7 → pad = []) := by
  obtain ⟨h, w, bid, blocks, nodes, ns, ne, nb, pl, ep, hh, hd, hp, hl, hr⟩ :=
    process_file_ok_elim c mode input r hok
  subst hr
  constructor
  · rfl
  · rcases Nat.lt_or_ge h.version 7 with h7 | h7
    · refine ⟨[], ?_, fun _ => rfl⟩
      show (buildResult h.version h.unity_ver h.unity_rev h.bundle_size h.flags
        blocks nodes bid ns ne nb pl).output = _
      simp only [buildResult]
      rw [if_neg (by omega : ¬ 7 ≤ h.version)]
      simp [List.append_assoc]
    · refine ⟨List.replicate
        (alignTo (outputPrefix h.version h.unity_ver h.unity_rev
          (buildResult h.version h.unity_ver h.unity_rev h.bundle_size h.flags
            blocks nodes bid ns ne nb pl).total_file_size
          (buildResult h.version h.unity_ver h.unity_rev h.bundle_size h.flags
            blocks nodes bid ns ne nb pl).new_block_info_blob.length).length 16 -
         (outputPrefix h.version h.unity_ver h.unity_rev
          (buildResult h.version h.unity_ver h.unity_rev h.bundle_size h.flags
            blocks nodes bid ns ne nb pl).total_file_size
          (buildResult h.version h.unity_ver h.unity_rev h.bundle_size h.flags
            blocks nodes bid ns ne nb pl).new_block_info_blob.length).length) 0,
        ?_, fun hlt => absurd h7 (by simp only [buildResult] at hlt ⊢; omega)⟩
      show (buildResult h.version h.unity_ver h.unity_rev h.bundle_size h.flags
        blocks nodes bid ns ne nb pl).output = _
      simp only [buildResult]
      rw [if_pos h7]

/-- C7 witness: the total-size formula and output layout hold on the
concrete one-block bundle. -/
theorem claim_C7_witness :
    wResult1.total_file_size =
      (if 7 ≤ wResult1.version then
        alignTo ((unityFS ++ [0] ++ beBytes 4 wResult1.version ++ wResult1.unity_ver ++ [0] ++
          wResult1.unity_rev ++ [0]).length + 8 + 4 + 4 + 4) 16
       else (unityFS ++ [0] ++ beBytes 4 wResult1.version ++ wResult1.unity_ver ++ [0] ++
          wResult1.unity_rev ++ [0]).length + 8 + 4 + 4 + 4) +
      wResult1.new_block_info_blob.length + wResult1.all_decompressed_data.length ∧
    ∃ pad : List Nat,
      wResult1.output =
        outputPrefix wResult1.version wResult1.unity_ver wResult1.unity_rev
          wResult1.total_file_size wResult1.new_block_info_blob.length ++ pad ++
        wResult1.new_block_info_blob ++ wResult1.all_decompressed_data ∧
      (wResult1.version < 7 → pad = []) :=
  claim_C7 trivialCodecs GameMode.Standard wBundle wResult1 (by rfl)

/-- C1 (amended): the rewritten output's block table contains one
BlockDescriptor per input block (so exactly one only for one-block inputs);
each descriptor's uncompressed and compressed sizes are equal and its flags
are cleared; the descriptors' sizes sum to the length of the concatenated
decompressed payload; and the output header's flags field is exactly the
directory-and-blocks-combined bit, serialized as the bytes 0,0,0,64. -/
theorem claim_C1 (c : Codecs) (mode : GameMode) (input : List Nat)
    (r : ProcessResult) (hok : process_file c mode input = .ok r)
    (hsz : r.all_decompressed_data.length < 4294967296) :
    r.new_blocks.length = r.blocks.length ∧
    (∀ nb ∈ r.new_blocks, nb.compressed_size = nb.uncompressed_size ∧ nb.flags = 0) ∧
    (r.new_blocks.map (fun b => b.uncompressed_size)).sum =
      r.all_decompressed_data.length ∧
    r.new_block_info_blob =
      List.replicate 16 0 ++ beBytes 4 r.new_blocks.length ++
      r.new_blocks.flatMap serializeBlock ++
      beBytes 4 r.nodes.length ++ r.nodes.flatMap serializeNode ∧
    beBytes 4 FLAG_BLOCKS_AND_DIR_COMBINED = [0, 0, 0, 64] ∧
    ∃ pad : List Nat,
      r.output =
        outputPrefix r.version r.unity_ver r.unity_rev r.total_file_size
          r.new_block_info_blob.length ++ pad ++
        r.new_block_info_blob ++ r.all_decompressed_data := by
  obtain ⟨h, w, bid, blocks, nodes, ns, ne, nb, pl, ep, hh, hd, hp, hl, hr⟩ :=
    process_file_ok_elim c mode input r hok
  obtain ⟨hlen, hflags, hsum⟩ := decompressBlocksLoop_props c mode input blocks _ nb pl ep hl
  have hpl : r.all_decompressed_data = pl := by
    rw [hr]
    rfl
  refine ⟨?_, ?_, ?_, ?_, by rfl, ?_⟩
  · rw [hr]
    exact hlen
  · rw [hr]
    exact hflags
  · rw [hr]
    show (nb.map (fun b => b.uncompressed_size)).sum = pl.length
    exact hsum (by rw [hpl] at hsz; exact hsz)
  · rw [hr]
    rfl
  · subst hr
    rcases Nat.lt_or_ge h.version 7 with h7 | h7
    · refine ⟨[], ?_⟩
      show (buildResult h.version h.unity_ver h.unity_rev h.bundle_size h.flags
        blocks nodes bid ns ne nb pl).output = _
      simp only [buildResult]
      rw [if_neg (by omega : ¬ 7 ≤ h.version)]
      simp [List.append_assoc]
    · refine ⟨List.replicate
        (alignTo (outputPrefix h.version h.unity_ver h.unity_rev
          (buildResult h.version h.unity_ver h.unity_rev h.bundle_size h.flags
            blocks nodes bid ns ne nb pl).total_file_size
          (buildResult h.version h.unity_ver h.unity_rev h.bundle_size h.flags
            blocks nodes bid ns ne nb pl).new_block_info_blob.length).length 16 -
         (outputPrefix h.version h.unity_ver h.unity_rev
          (buildResult h.version h.unity_ver h.unity_rev h.bundle_size h.flags
            blocks nodes bid ns ne nb pl).total_file_size
          (buildResult h.version h.unity_ver h.unity_rev h.bundle_size h.flags
            blocks nodes bid ns ne nb pl).new_block_info_blob.length).length) 0, ?_⟩
      show (buildResult h.version h.unity_ver h.unity_rev h.bundle_size h.flags
        blocks nodes bid ns ne nb pl).output = _
      simp only [buildResult]
      rw [if_pos h7]

/-- C1 counterexample: on a two-block bundle the rewritten block table has
two descriptors, not exactly one as the claim states. -/
theorem claim_C1_counterexample :
    process_file trivialCodecs GameMode.Standard wBundle2 = .ok wResult2 ∧
    wResult2.new_blocks = [⟨1, 1, 0⟩, ⟨1, 1, 0⟩] ∧
    wResult2.new_blocks.length ≠ 1 :=
  ⟨by rfl, by rfl, by decide⟩

/-- C1 witness: the amended claim instantiated on the concrete one-block
bundle. -/
theorem claim_C1_witness :
    wResult1.new_blocks.length = wResult1.blocks.length ∧
    (∀ nb ∈ wResult1.new_blocks, nb.compressed_size = nb.uncompressed_size ∧ nb.flags = 0) ∧
    (wResult1.new_blocks.map (fun b => b.uncompressed_size)).sum =
      wResult1.all_decompressed_data.length ∧
    wResult1.new_block_info_blob =
      List.replicate 16 0 ++ beBytes 4 wResult1.new_blocks.length ++
      wResult1.new_blocks.flatMap serializeBlock ++
      beBytes 4 wResult1.nodes.length ++ wResult1.nodes.flatMap serializeNode ∧
    beBytes 4 FLAG_BLOCKS_AND_DIR_COMBINED = [0, 0, 0, 64] ∧
    ∃ pad : List Nat,
      wResult1.output =
        outputPrefix wResult1.version wResult1.unity_ver wResult1.unity_rev
          wResult1.total_file_size wResult1.new_block_info_blob.length ++ pad ++
        wResult1.new_block_info_blob ++ wResult1.all_decompressed_data :=
  claim_C1 trivialCodecs GameMode.Standard wBundle wResult1 (by rfl) (by decide)

/-- C5: the rewritten output serializes the same number of FileEntry records
as were parsed from the input, in the same order (the blob's entry region is
exactly the serialization of the parsed entry list), and the serialized
entry region is byte-identical to the corresponding region of the
decompressed input table; the rewriter never reorders or renames entries.
The hypotheses say that the decompressed table is made of bytes and that
entry parsing ended inside the table. -/
theorem claim_C5 (c : Codecs) (mode : GameMode) (input : List Nat)
    (r : ProcessResult) (hok : process_file c mode input = .ok r)
    (hwf : ∀ b ∈ r.block_info_data, b < 256)
    (hend : r.nodes_end ≤ r.block_info_data.length) :
    r.new_block_info_blob =
      List.replicate 16 0 ++ beBytes 4 r.new_blocks.length ++
      r.new_blocks.flatMap serializeBlock ++
      beBytes 4 r.nodes.length ++ r.nodes.flatMap serializeNode ∧
    r.nodes.flatMap serializeNode =
      (r.block_info_data.drop r.nodes_start).take (r.nodes_end - r.nodes_start) := by
  obtain ⟨h, w, bid, blocks, nodes, ns, ne, nb, pl, ep, hh, hd, hp, hl, hr⟩ :=
    process_file_ok_elim c mode input r hok
  have hbid : r.block_info_data = bid := by
    rw [hr]
    rfl
  have hns : r.nodes_start = ns := by
    rw [hr]
    rfl
  have hne2 : r.nodes_end = ne := by
    rw [hr]
    rfl
  have hnodes : r.nodes = nodes := by
    rw [hr]
    rfl
  obtain ⟨count, hrn⟩ := parseBlockEntries_nodes bid blocks nodes ns ne hp
  obtain ⟨hle, hcount, hregion⟩ := readNodes_region bid
    (by rw [hbid] at hwf; exact hwf) count ns nodes ne hrn
    (by rw [hbid, hne2] at hend; exact hend)
  constructor
  · rw [hr]
    rfl
  · rw [hbid, hns, hne2, hnodes]
    exact hregion

/-- C5 witness: the concrete one-block bundle satisfies the round-trip. -/
theorem claim_C5_witness :
    wResult1.new_block_info_blob =
      List.replicate 16 0 ++ beBytes 4 wResult1.new_blocks.length ++
      wResult1.new_blocks.flatMap serializeBlock ++
      beBytes 4 wResult1.nodes.length ++ wResult1.nodes.flatMap serializeNode ∧
    wResult1.nodes.flatMap serializeNode =
      (wResult1.block_info_data.drop wResult1.nodes_start).take
        (wResult1.nodes_end - wResult1.nodes_start) :=
  claim_C5 trivialCodecs GameMode.Standard wBundle wResult1 (by rfl)
    (by decide) (by decide)

/-- C2 (amended): for the None identifier the dispatcher returns the input
slice unchanged with no logged discrepancy, whatever the declared size; for
LZMA, LZ4, LZ4-HC and standard-mode LZHAM a successful call returns exactly
the declared decompressed size (a short codec result is zero-padded
silently); only the proprietary Arknights LZHAM path can return fewer bytes,
with a logged discrepancy exactly when the codec's byte count differs from
the declared size — except that an empty compressed slice returns empty
output with no log; a short result is never a hard error, only a true
decode failure is.  The three codec hypotheses are the libraries' contract
that they never write more than the destination capacity. -/
theorem claim_C2 (c : Codecs) (mode : GameMode) (type : CompressionType)
    (src out : List Nat) (n : Nat) (warned : Bool)
    (hlz4 : ∀ s cap o, c.lz4 s cap = some o → o.length ≤ cap)
    (hlzma : ∀ p s cap o, c.lzma p s cap = some o → o.length ≤ cap)
    (hlzham : ∀ s cap o, c.lzham s cap = some o → o.length ≤ cap)
    (hok : decompress_block c type src n mode = .ok (out, warned)) :
    (type = .None → out = src ∧ warned = false) ∧
    ((type = .Lzma ∨ type = .Lz4 ∨ type = .Lz4hc ∨
      (type = .Lzham ∧ mode = .Standard)) → out.length = n ∧ warned = false) ∧
    (type = .Lzham ∧ mode = .Arknights →
      out.length ≤ n ∧
      (src = [] → out = [] ∧ warned = false) ∧
      (src ≠ [] → (warned = true ↔ out.length ≠ n))) := by
  cases type with
  | None =>
    simp only [decompress_block, Except.ok.injEq, Prod.mk.injEq] at hok
    obtain ⟨h1, h2⟩ := hok
    subst h1
    subst h2
    exact ⟨fun _ => ⟨rfl, rfl⟩,
      fun hor => by rcases hor with h | h | h | ⟨h, _⟩ <;> exact absurd h (by simp),
      fun hand => absurd hand.1 (by simp)⟩
  | Lzma =>
    simp only [decompress_block] at hok
    split at hok
    case isTrue => cases hok
    case isFalse h5 =>
      split at hok
      case h_1 => cases hok
      case h_2 o heq =>
        simp only [Except.ok.injEq, Prod.mk.injEq] at hok
        obtain ⟨h1, h2⟩ := hok
        subst h1
        subst h2
        have hle := hlzma (src.take 5) (src.drop 5) n o heq
        refine ⟨fun h => absurd h (by simp), fun _ => ⟨?_, rfl⟩,
          fun hand => absurd hand.1 (by simp)⟩
        simp only [List.length_append, List.length_replicate]
        omega
  | Lz4 =>
    simp only [decompress_block] at hok
    split at hok
    case h_1 => cases hok
    case h_2 o heq =>
      simp only [Except.ok.injEq, Prod.mk.injEq] at hok
      obtain ⟨h1, h2⟩ := hok
      subst h1
      subst h2
      have hle := hlz4 src n o heq
      refine ⟨fun h => absurd h (by simp), fun _ => ⟨?_, rfl⟩,
        fun hand => absurd hand.1 (by simp)⟩
      simp only [List.length_append, List.length_replicate]
      omega
  | Lz4hc =>
    simp only [decompress_block] at hok
    split at hok
    case h_1 => cases hok
    case h_2 o heq =>
      simp only [Except.ok.injEq, Prod.mk.injEq] at hok
      obtain ⟨h1, h2⟩ := hok
      subst h1
      subst h2
      have hle := hlz4 src n o heq
      refine ⟨fun h => absurd h (by simp), fun _ => ⟨?_, rfl⟩,
        fun hand => absurd hand.1 (by simp)⟩
      simp only [List.length_append, List.length_replicate]
      omega
  | Lzham =>
    cases mode with
    | Standard =>
      simp only [decompress_block] at hok
      split at hok
      case h_1 => cases hok
      case h_2 o heq =>
        simp only [Except.ok.injEq, Prod.mk.injEq] at hok
        obtain ⟨h1, h2⟩ := hok
        subst h1
        subst h2
        have hle := hlzham src n o heq
        refine ⟨fun h => absurd h (by simp), fun _ => ⟨?_, rfl⟩,
          fun hand => absurd hand.2 (by simp)⟩
        simp only [List.length_append, List.length_replicate]
        omega
    | Arknights =>
      simp only [decompress_block, decompress_lzak] at hok
      split at hok
      case isTrue hemp =>
        simp only [Except.ok.injEq, Prod.mk.injEq] at hok
        obtain ⟨h1, h2⟩ := hok
        subst h1
        subst h2
        refine ⟨fun h => absurd h (by simp), ?_, fun _ => ⟨by simp, fun _ => ⟨rfl, rfl⟩, ?_⟩⟩
        · intro hor
          rcases hor with h | h | h | ⟨_, h⟩ <;> exact absurd h (by simp)
        · intro hne
          exact absurd (List.isEmpty_iff.mp hemp) hne
      case isFalse hemp =>
        split at hok
        case h_1 => cases hok
        case h_2 result heq =>
          have hle := hlz4 _ n result heq
          split at hok
          case isTrue hexact =>
            simp only [Except.ok.injEq, Prod.mk.injEq] at hok
            obtain ⟨h1, h2⟩ := hok
            subst h1
            subst h2
            refine ⟨fun h => absurd h (by simp), ?_, fun _ => ⟨hle, ?_, fun _ => ?_⟩⟩
            · intro hor
              rcases hor with h | h | h | ⟨_, h⟩ <;> exact absurd h (by simp)
            · intro hemp2
              exact absurd hemp2 (by simpa [List.isEmpty_iff] using hemp)
            · simp [hexact]
          case isFalse hexact =>
            simp only [Except.ok.injEq, Prod.mk.injEq] at hok
            obtain ⟨h1, h2⟩ := hok
            subst h1
            subst h2
            refine ⟨fun h => absurd h (by simp), ?_, fun _ => ⟨hle, ?_, fun _ => ?_⟩⟩
            · intro hor
              rcases hor with h | h | h | ⟨_, h⟩ <;> exact absurd h (by simp)
            · intro hemp2
              exact absurd hemp2 (by simpa [List.isEmpty_iff] using hemp)
            · simp [hexact]
  | Other v =>
    simp only [decompress_block] at hok
    cases hok

/-- C2 counterexample: under the None identifier with a 2-byte slice and a
declared size of 1, the dispatcher returns 2 bytes — neither exactly the
declared size nor fewer — and logs nothing. -/
theorem claim_C2_counterexample :
    decompress_block trivialCodecs CompressionType.None [0, 0] 1 GameMode.Standard =
      .ok ([0, 0], false) ∧
    ¬ (([0, 0] : List Nat).length = 1 ∨ ([0, 0] : List Nat).length < 1) :=
  ⟨by rfl, by decide⟩

/-- Codec oracles that always succeed and fill the whole destination, used
to instantiate dispatcher theorems at a concrete input. -/
def okCodecs : Codecs :=
  ⟨fun _ cap => some (List.replicate cap 0),
   fun _ _ cap => some (List.replicate cap 0),
   fun _ cap => some (List.replicate cap 0)⟩

/-- C2 witness: the amended dispatcher contract instantiated on a concrete
LZ4 call that succeeds with the exact declared size. -/
theorem claim_C2_witness :
    (CompressionType.Lz4 = CompressionType.None → ([0, 0] : List Nat) = [1] ∧ false = false) ∧
    ((CompressionType.Lz4 = CompressionType.Lzma ∨ CompressionType.Lz4 = CompressionType.Lz4 ∨
      CompressionType.Lz4 = CompressionType.Lz4hc ∨
      (CompressionType.Lz4 = CompressionType.Lzham ∧ GameMode.Standard = GameMode.Standard)) →
      ([0, 0] : List Nat).length = 2 ∧ false = false) ∧
    (CompressionType.Lz4 = CompressionType.Lzham ∧ GameMode.Standard = GameMode.Arknights →
      ([0, 0] : List Nat).length ≤ 2 ∧
      (([1] : List Nat) = [] → ([0, 0] : List Nat) = [] ∧ false = false) ∧
      (([1] : List Nat) ≠ [] → (false = true ↔ ([0, 0] : List Nat).length ≠ 2))) :=
  claim_C2 okCodecs GameMode.Standard CompressionType.Lz4 [1] [0, 0] 2 false
    (fun s cap o h => by injection h with h2; rw [← h2]; simp)
    (fun p s cap o h => by injection h with h2; rw [← h2]; simp)
    (fun s cap o h => by injection h with h2; rw [← h2]; simp)
    (by rfl)

/-- C8: dispatching a compressed slice shorter than 5 bytes under the LZMA
identifier fails with a decode error before any decoding; with at least 5
bytes, the first 5 are consumed as codec properties and stripped, and only
the remainder is handed to the LZMA library. -/
theorem claim_C8 (c : Codecs) (src : List Nat) (n : Nat) (mode : GameMode) :
    (src.length < 5 →
      decompress_block c CompressionType.Lzma src n mode = .error "Invalid LZMA data") ∧
    (5 ≤ src.length →
      decompress_block c CompressionType.Lzma src n mode =
        match c.lzma (src.take 5) (src.drop 5) n with
        | none => .error "LZMA Decomp failed"
        | some out => .ok (out ++ List.replicate (n - out.length) 0, false)) := by
  constructor
  · intro h5
    simp only [decompress_block]
    rw [if_pos h5]
  · intro h5
    simp only [decompress_block]
    rw [if_neg (by omega)]

theorem rel_go_step (data : List Nat) (fuel cursor acc : Nat) (h : cursor < data.length) :
    read_extra_length_go data (fuel + 1) cursor acc =
      if getByte data cursor = 255 then
        read_extra_length_go data fuel (cursor + 1) (acc + getByte data cursor)
      else (acc + getByte data cursor, cursor + 1) := by
  simp only [read_extra_length_go]
  rw [if_pos h]

/-- C3 (amended): when the rewrite loop reads a token whose literal-length
nibble is 0x0F and the following extra-length bytes are 0xFF, 0xFF, 0x05,
it consumes a literal length of 530 bytes (15 + 0xFF + 0xFF + 0x05 = 530),
advancing the read cursor to right past the extra-length bytes plus 530. -/
theorem claim_C3 (usize size : Nat) (buf : List Nat) (ip op : Nat)
    (h0 : getByte buf ip % 16 = 15)
    (h1 : getByte buf (ip + 1) = 255)
    (h2 : getByte buf (ip + 2) = 255)
    (h3 : getByte buf (ip + 3) = 5)
    (hsz : ip + 3 < buf.length)
    (hstop : usize ≤ op + 530) :
    (lzakIter usize size buf ip op).op = op + 530 ∧
    (lzakIter usize size buf ip op).ip = ip + 4 + 530 ∧
    15 + 255 + 255 + 5 = 530 := by
  simp only [lzakIter]
  rw [h0]
  have hlen1 : (setByte buf ip (lzak_transpose (getByte buf ip))).length = buf.length :=
    length_setByte _ _ _
  have hb1 : getByte (setByte buf ip (lzak_transpose (getByte buf ip))) (ip + 1) = 255 := by
    rw [getByte_setByte_ne _ _ _ _ (by omega)]
    exact h1
  have hb2 : getByte (setByte buf ip (lzak_transpose (getByte buf ip))) (ip + 1 + 1) = 255 := by
    rw [getByte_setByte_ne _ _ _ _ (by omega)]
    have he : ip + 1 + 1 = ip + 2 := by omega
    rw [he]
    exact h2
  have hb3 : getByte (setByte buf ip (lzak_transpose (getByte buf ip))) (ip + 1 + 1 + 1) = 5 := by
    rw [getByte_setByte_ne _ _ _ _ (by omega)]
    have he : ip + 1 + 1 + 1 = ip + 3 := by omega
    rw [he]
    exact h3
  have hk : (setByte buf ip (lzak_transpose (getByte buf ip))).length - (ip + 1) =
      buf.length - ip - 4 + 1 + 1 + 1 := by
    rw [hlen1]
    omega
  have hext : read_extra_length (setByte buf ip (lzak_transpose (getByte buf ip))) (ip + 1) =
      (515, ip + 4) := by
    rw [read_extra_length, hk,
      rel_go_step _ _ _ _ (by rw [hlen1]; omega), hb1, if_pos rfl,
      rel_go_step _ _ _ _ (by rw [hlen1]; omega), hb2, if_pos rfl,
      rel_go_step _ _ _ _ (by rw [hlen1]; omega), hb3, if_neg (by omega)]
  rw [if_pos rfl, hext]
  dsimp only
  have hcond : usize ≤ op + (15 + 515) := by omega
  rw [if_pos hcond]
  exact ⟨rfl, rfl, trivial⟩

/-- C3 counterexample: on the concrete token stream 0x0F, 0xFF, 0xFF, 0x05
the iteration consumes 530 literal bytes and leaves the cursor at
4 + 530 = 534, not at 4 + 524 as the claim computes. -/
theorem claim_C3_counterexample :
    lzakIter 1000000 4 [15, 255, 255, 5] 0 0 =
      ⟨[240, 255, 255, 5], 534, 530, [0, 1, 2, 3], false⟩ ∧
    (534 : Nat) ≠ 4 + 524 := by
  constructor
  · decide
  · decide

/-- C3 witness: the amended consumption count on the concrete stream. -/
theorem claim_C3_witness :
    (lzakIter 1 4 [15, 255, 255, 5] 0 0).op = 0 + 530 ∧
    (lzakIter 1 4 [15, 255, 255, 5] 0 0).ip = 0 + 4 + 530 ∧
    15 + 255 + 255 + 5 = 530 :=
  claim_C3 1 4 [15, 255, 255, 5] 0 0 (by decide) (by decide) (by decide)
    (by decide) (by decide) (by decide)

set_option maxRecDepth 4000 in
/-- C4: the pre-transform token rewrite replaces the token byte with its two
nibbles transposed (the low nibble moves to the high half and the high
nibble to the low half), and applying the transposition twice returns the
original byte, for all 256 byte values. -/
theorem claim_C4 :
    (∀ b : Fin 256, lzak_transpose (lzak_transpose b.val) = b.val) ∧
    (∀ usize size buf ip op, ip < buf.length →
      getByte (lzakIter usize size buf ip op).buf ip =
        lzak_transpose (getByte buf ip)) := by
  constructor
  · decide
  · intro usize size buf ip op hip
    have h1 := read_extra_length_mono
      (setByte buf ip (lzak_transpose (getByte buf ip))) (ip + 1)
    simp only [lzakIter]
    split
    case isTrue h15 =>
      split
      · exact getByte_setByte_self buf ip _ hip
      · split
        · exact getByte_setByte_self buf ip _ hip
        · dsimp only
          rw [getByte_setByte_ne _ _ _ _ (by omega), getByte_setByte_ne _ _ _ _ (by omega)]
          exact getByte_setByte_self buf ip _ hip
    case isFalse h15 =>
      split
      · exact getByte_setByte_self buf ip _ hip
      · split
        · exact getByte_setByte_self buf ip _ hip
        · dsimp only
          rw [getByte_setByte_ne _ _ _ _ (by omega), getByte_setByte_ne _ _ _ _ (by omega)]
          exact getByte_setByte_self buf ip _ hip

/-- C6: the pre-transform rewrite returns empty output immediately on empty
input; its loop stops without error as soon as the virtual output counter
reaches or exceeds the target decompressed size after consuming literals
(the iteration then ends right after the literal bytes, with the remaining
trailing bytes unprocessed), and it also stops without error when fewer
than 2 bytes remain for the match-distance field. -/
theorem claim_C6 :
    (∀ lz4 n, decompress_lzak lz4 [] n = .ok ([], false)) ∧
    (∀ fuel usize size buf ip op, ip < size →
      (lzakIter usize size buf ip op).cont = false →
      lzakLoop usize size (fuel + 1) buf ip op =
        (((lzakIter usize size buf ip op).buf, (lzakIter usize size buf ip op).ip,
          (lzakIter usize size buf ip op).op), (lzakIter usize size buf ip op).touched)) ∧
    (∀ usize size buf ip op l e,
      l = getByte buf ip % 16 →
      e = (if l = 15 then
            read_extra_length (setByte buf ip (lzak_transpose (getByte buf ip))) (ip + 1)
          else (0, ip + 1)) →
      usize ≤ op + (l + e.fst) →
      (lzakIter usize size buf ip op).cont = false ∧
      (lzakIter usize size buf ip op).ip = e.snd + (l + e.fst) ∧
      (lzakIter usize size buf ip op).op = op + (l + e.fst)) ∧
    (∀ usize size buf ip op l e,
      l = getByte buf ip % 16 →
      e = (if l = 15 then
            read_extra_length (setByte buf ip (lzak_transpose (getByte buf ip))) (ip + 1)
          else (0, ip + 1)) →
      op + (l + e.fst) < usize →
      size < e.snd + (l + e.fst) + 2 →
      (lzakIter usize size buf ip op).cont = false ∧
      (lzakIter usize size buf ip op).ip = e.snd + (l + e.fst)) := by
  refine ⟨fun lz4 n => rfl, ?_, ?_, ?_⟩
  · intro fuel usize size buf ip op hip hcont
    simp only [lzakLoop]
    rw [if_pos hip, hcont]
    simp
  · intro usize size buf ip op l e hl he hstop
    subst hl
    subst he
    simp only [lzakIter]
    rw [if_pos hstop]
    exact ⟨rfl, rfl, rfl⟩
  · intro usize size buf ip op l e hl he hns hsmall
    subst hl
    subst he
    simp only [lzakIter]
    rw [if_neg (by omega), if_pos hsmall]
    exact ⟨rfl, rfl⟩

/-- C10: the pre-transform rewrite loop never accesses the working buffer
out of bounds — when the loop is run on a buffer whose length is the cached
size (as decompress_lzak does), every buffer index it reads or writes is
below that size: the token read is guarded by the loop bound, the 2-byte
match-distance access by the explicit remaining-length check, and the
extra-length reads stop at the end of the buffer; moreover read_extra_length
started at or past the end returns 0 without reading anything. -/
theorem claim_C10 :
    (∀ usize size fuel buf ip op, buf.length = size →
      ∀ i ∈ (lzakLoop usize size fuel buf ip op).snd, i < size) ∧
    (∀ data cursor, data.length ≤ cursor →
      read_extra_length data cursor = (0, cursor)) :=
  ⟨fun usize size fuel buf ip op h => lzakLoop_touched_lt usize size fuel buf ip op h,
   read_extra_length_at_end⟩

/-- C9: the block-info table blob is always decompressed with the standard
game variant regardless of the game-variant selector passed to the
conversion: the proprietary pre-transform decoder is never invoked on the
table itself, so the parsed block table and file entries are identical for
both variant selections on the same input. -/
theorem claim_C9 (c : Codecs) (m1 m2 : GameMode) (input : List Nat)
    (r1 r2 : ProcessResult)
    (h1 : process_file c m1 input = .ok r1)
    (h2 : process_file c m2 input = .ok r2) :
    r1.blocks = r2.blocks ∧ r1.nodes = r2.nodes := by
  obtain ⟨h, w, bid, blocks, nodes, ns, ne, nb, pl, ep, hh, hd, hp, hl, hr⟩ :=
    process_file_ok_elim c m1 input r1 h1
  obtain ⟨h', w', bid', blocks', nodes', ns', ne', nb', pl', ep', hh', hd', hp', hl', hr'⟩ :=
    process_file_ok_elim c m2 input r2 h2
  rw [hh] at hh'
  injection hh' with hhe
  subst hhe
  rw [hd] at hd'
  injection hd' with hde
  injection hde with hde1 hde2
  subst hde1
  rw [hp] at hp'
  injection hp' with hpe
  injection hpe with hpe1 hpe2
  injection hpe2 with hpe2 hpe3
  constructor
  · rw [hr, hr', ← hpe1]
    rfl
  · rw [hr, hr', ← hpe2]
    rfl

/-- C9 witness: the one-block bundle processed under both game variants
yields the same parsed table. -/
theorem claim_C9_witness :
    wResult1.blocks = wResult1A.blocks ∧ wResult1.nodes = wResult1A.nodes :=
  claim_C9 trivialCodecs GameMode.Standard GameMode.Arknights wBundle
    wResult1 wResult1A (by rfl) (by rfl)
